import Mathlib

/-!
# Verification of `main.py` (JiraDependencyViewer)

Shallow embedding of the CSV-processing and edge-classification logic of
`src/main.py`.  The Python `csv` module itself is out of scope (the spec lists
CSV file I/O among external collaborators), so CSV content is modelled at the
row level: a file's parsed content is a `List (List String)` of rows, each row
a list of string fields.  Python exceptions are modelled with `Except`;
the file system is modelled as a partial map from paths to contents.
-/

namespace JiraDep

/-- Python runtime errors relevant to `main.py`.  In Python both
`unpackValueError` (`task_id, sprint = row` with more than two fields) and
`intValueError` (`int(...)` on a bad literal) are `ValueError`;
`fileNotFound` is `FileNotFoundError`. -/
inductive PyErr where
  | fileNotFound
  | unpackValueError
  | intValueError
deriving DecidableEq

/-- One character of a Python digit check: `'0' ≤ c ≤ '9'` (code points
48–57). -/
def isDigit (c : Char) : Bool := 48 ≤ c.toNat && c.toNat ≤ 57

/-- Numeric value of a digit character. -/
def digitVal (c : Char) : Nat := c.toNat - 48

/-- Characters Python's `int(str)` strips from both ends. -/
def isPySpace (c : Char) : Bool :=
  c = ' ' || c = '\t' || c = '\n' || c = '\x0d' || c = '\x0b' || c = '\x0c'

/-- Accumulating parse of a digit string, allowing single underscores between
digits (Python 3 integer literals): embeds the digit-consuming part of
Python's `int(str)`. -/
def parseDigitsAux : Nat → List Char → Option Nat
  | a, [] => some a
  | a, [c] => if isDigit c then some (a * 10 + digitVal c) else none
  | a, c :: c₂ :: cs =>
      if isDigit c then parseDigitsAux (a * 10 + digitVal c) (c₂ :: cs)
      else if c = '_' ∧ isDigit c₂ then parseDigitsAux a (c₂ :: cs)
      else none

/-- Parse a non-empty digit string (underscores only between digits). -/
def pyParseDigits : List Char → Option Nat
  | [] => none
  | c :: cs => if isDigit c then parseDigitsAux (digitVal c) cs else none

/-- Strip Python-whitespace from both ends of a character list. -/
def pyStrip (l : List Char) : List Char :=
  ((l.dropWhile isPySpace).reverse.dropWhile isPySpace).reverse

/-- Sign handling of Python's `int(str)` after stripping. -/
def pyIntCore : List Char → Option Int
  | [] => none
  | c :: cs =>
      if c = '+' then (pyParseDigits cs).map Int.ofNat
      else if c = '-' then (pyParseDigits cs).map Int.negOfNat
      else (pyParseDigits (c :: cs)).map Int.ofNat

/-- Embedding of Python's `int(s)` for `str` arguments: `none` models a raised
`ValueError` (ASCII fragment; exotic Unicode digits are out of scope). -/
def pyInt (s : String) : Option Int := pyIntCore (pyStrip s.data)

/-- Embedding of Python's `s.replace("SP", "")`: remove non-overlapping
occurrences of `"SP"` left to right. -/
def removeSP : List Char → List Char
  | [] => []
  | [c] => [c]
  | c₁ :: c₂ :: cs =>
      if c₁ = 'S' ∧ c₂ = 'P' then removeSP cs
      else c₁ :: removeSP (c₂ :: cs)

/-- `int(sprint.replace("SP", ""))` from `read_sprints` (main.py line 18):
the sprint number computed for a sprint label, `none` when Python raises
`ValueError`. -/
def parseSprintNum (sprint : String) : Option Int :=
  pyInt (String.mk (removeSP sprint.data))

/-- Python `dict` update `m[k] = v`, modelled up to lookup semantics
(`List.lookup` scans from the front, so insert in front and drop the old
binding; `main.py` never observes the iteration order of `sprint_map`). -/
def dictInsert (m : List (String × α)) (k : String) (v : α) :
    List (String × α) :=
  (k, v) :: m.filter (fun p => p.1 ≠ k)

/-- Loop body of `read_sprints` (main.py lines 14-19) over already-split CSV
rows, accumulating `sprint_map`.  A row with at least two fields is unpacked
by `task_id, sprint = row`, which raises `ValueError` unless the length is
exactly two; shorter rows are skipped. -/
def readSprintsAux (m : List (String × String × Int)) :
    List (List String) → Except PyErr (List (String × String × Int))
  | [] => .ok m
  | row :: rest =>
      match row with
      | [taskId, sprint] =>
          match parseSprintNum sprint with
          | some n => readSprintsAux (dictInsert m taskId (sprint, n)) rest
          | none => .error .intValueError
      | _ =>
          if row.length ≥ 2 then .error .unpackValueError
          else readSprintsAux m rest

/-- Embedding of `read_sprints` (main.py lines 9-20) applied to the parsed
rows of the sprint CSV: returns `sprint_map`, mapping each task id to the
pair (sprint label, sprint number). -/
def readSprints (rows : List (List String)) :
    Except PyErr (List (String × String × Int)) :=
  readSprintsAux [] rows

/-- Lexicographic comparison of character lists by code point: the order
Python's `sorted` uses on strings. -/
def charsLe : List Char → List Char → Bool
  | [], _ => true
  | _ :: _, [] => false
  | a :: as, b :: bs =>
      if a.toNat < b.toNat then true
      else if b.toNat < a.toNat then false
      else charsLe as bs

/-- String comparison by code points, as Python's `sorted` orders `str`. -/
def strLe (a b : String) : Bool := charsLe a.data b.data

/-- The sorting relation used to state sortedness of task lists. -/
def strLeR (a b : String) : Prop := strLe a b = true

instance : DecidableRel strLeR := fun a b => instDecidableEqBool (strLe a b) true

/-- `sorted(list(tasks))` from `parse_tasks` (main.py line 54): `tasks` is a
Python `set`, so the result is the duplicate-free, sorted list of its
elements. -/
def sortedTaskList (l : List String) : List String :=
  (l.dedup).insertionSort strLeR

/-- Edges contributed by one row of the dependency CSV
(main.py lines 46-53): the first field is blocked by each subsequent
non-empty field, giving edges (blocking, blocked). -/
def rowEdges : List String → List (String × String)
  | [] => []
  | blocked :: blockers =>
      (blockers.filter (fun b => b ≠ "")).map (fun b => (b, blocked))

/-- Tasks added to the `tasks` set by one row: both endpoints of each edge
(main.py lines 50-51; a row's first field is added only when the row
contributes at least one edge). -/
def rowTasks (row : List String) : List String :=
  (rowEdges row).flatMap (fun e => [e.1, e.2])

/-- Embedding of `parse_tasks` (main.py lines 36-54) on the parsed rows of
the dependency CSV: the sorted list of unique tasks that occur in some edge,
and the list of directed edges (blocking → blocked) in input order.
The `if not row: continue` branch coincides with `rowEdges [] = []`. -/
def parse_tasks (rows : List (List String)) :
    List String × List (String × String) :=
  (sortedTaskList (rows.flatMap rowTasks), rows.flatMap rowEdges)

/-- Lookup in an association list, the semantics of Python's
`task in d` / `d[task]` / `d.get(task, default)` for the dicts of
`main.py` (insertion order is never observed there). -/
def alookup (k : String) : List (String × α) → Option α
  | [] => none
  | (k', v) :: rest => if k = k' then some v else alookup k rest

/-- A file system: a partial map from paths to raw contents. -/
def FileSystem := String → Option String

/-- A file system whose contents are already split into CSV rows (CSV
parsing itself is an external collaborator per the spec). -/
def RowFileSystem := String → Option (List (List String))

/-- Embedding of `read_task_dependencies` (main.py lines 23-33): returns the
file content together with the list of console lines printed.  A missing
file (`FileNotFoundError`) is caught: an error is printed and `""`
returned. -/
def read_task_dependencies (fs : FileSystem) (filepath : String) :
    String × List String :=
  match fs filepath with
  | some content => (content, [])
  | none => ("", ["Error: File " ++ filepath ++ " not found"])

/-- `read_sprints` applied to a file (main.py lines 9-20): `open` on a
missing path raises `FileNotFoundError`, which nothing catches. -/
def read_sprints_file (fs : RowFileSystem) (file_path : String) :
    Except PyErr (List (String × String × Int)) :=
  match fs file_path with
  | some rows => readSprints rows
  | none => .error .fileNotFound

/-- The sprint label and number used for tasks absent from `sprint_map`
(main.py line 68). -/
def sentinelLabel : String := "Future Implementation"

/-- The sentinel sprint number 999 for unassigned tasks (main.py line 68). -/
def sentinelNum : Int := 999

/-- Sprint number attached to a task in `main` (main.py lines 64-70):
the number from `sprint_data` when present, else the sentinel 999. -/
def sprintNumOf (sprint_data : List (String × String × Int))
    (task : String) : Int :=
  match alookup task sprint_data with
  | some (_, n) => n
  | none => sentinelNum

/-- `task_sprint_map` built by the loop of main.py lines 64-70: each parsed
task mapped to its sprint number (sentinel 999 when unassigned). -/
def buildTaskSprintMap (sprint_data : List (String × String × Int))
    (tasks : List String) : List (String × Int) :=
  tasks.map (fun t => (t, sprintNumOf sprint_data t))

/-- Edge classification of main.py lines 79-85: an edge goes to `red_edges`
(violating) exactly when this returns `true`; otherwise it goes to
`black_edges` (normal).  Lookups fall back to `-1` for nodes outside
`task_sprint_map`, and an edge is red iff the target's number is not `-1`
and the source's number exceeds the target's. -/
def classifyRed (task_sprint_map : List (String × Int))
    (e : String × String) : Bool :=
  let source_sprint := (alookup e.1 task_sprint_map).getD (-1)
  let target_sprint := (alookup e.2 task_sprint_map).getD (-1)
  target_sprint ≠ -1 && source_sprint > target_sprint

/-- Whether an `Except` result is an error (a raised, uncaught Python
exception). -/
def exceptIsError : Except PyErr α → Bool
  | .error _ => true
  | .ok _ => false

/-- The character for a decimal digit value (`'*'` pads the impossible
out-of-range case). -/
def digitChar : Nat → Char
  | 0 => '0' | 1 => '1' | 2 => '2' | 3 => '3' | 4 => '4'
  | 5 => '5' | 6 => '6' | 7 => '7' | 8 => '8' | 9 => '9'
  | _ => '*'

/-- Decimal digits of a natural number, most significant first
(empty for 0). -/
def natRep (n : Nat) : List Char :=
  if n = 0 then [] else natRep (n / 10) ++ [digitChar (n % 10)]
termination_by n
decreasing_by omega

/-- Python's decimal rendering `str(n)` of a natural number. -/
def decimalNat (n : Nat) : List Char :=
  if n = 0 then ['0'] else natRep n

/-- Python's decimal rendering `str(n)` of an integer. -/
def decimalInt : Int → List Char
  | .ofNat m => decimalNat m
  | .negSucc m => '-' :: decimalNat (m + 1)

/-- The sprint label `"SP<n>"`: `"SP"` prefixed to the decimal rendering
of `n`. -/
def sprintLabel (n : Int) : String :=
  String.mk ('S' :: 'P' :: decimalInt n)

/-- Left-to-right accumulation of a digit string's value (the value
`parseDigitsAux` computes on digit-only input). -/
def digitsVal (a : Nat) : List Char → Nat
  | [] => a
  | c :: cs => digitsVal (a * 10 + digitVal c) cs

/-- The sprint-label transformation as the specification describes it:
strip only a leading `"SP"` prefix, leaving the label unchanged when the
prefix is absent.  Stated from the spec's words for comparison with the
implementation's `sprint.replace("SP", "")` (see `parseSprintNum`). -/
def spec_stripPrefixSP (s : String) : String :=
  match s.data with
  | 'S' :: 'P' :: rest => String.mk rest
  | _ => s

end JiraDep

namespace JiraDep

lemma alookup_mem {α : Type} {k : String} {v : α} :
    ∀ {l : List (String × α)}, alookup k l = some v → (k, v) ∈ l := by
  intro l
  induction l with
  | nil => intro h; exact absurd h (by simp [alookup])
  | cons p rest ih =>
    obtain ⟨k', v'⟩ := p
    intro h
    simp only [alookup] at h
    by_cases hk : k = k'
    · rw [if_pos hk] at h
      obtain rfl := Option.some.inj h
      exact hk ▸ List.mem_cons_self _ _
    · rw [if_neg hk] at h
      exact List.mem_cons_of_mem _ (ih h)

end JiraDep

namespace JiraDep

lemma charsLe_cons_iff {a b : Char} {as bs : List Char} :
    charsLe (a :: as) (b :: bs) = true ↔
      (a.toNat < b.toNat ∨ (a.toNat = b.toNat ∧ charsLe as bs = true)) := by
  simp only [charsLe]
  by_cases h₁ : a.toNat < b.toNat
  · simp [h₁]
  · by_cases h₂ : b.toNat < a.toNat
    · simp only [if_neg h₁, if_pos h₂]
      constructor
      · intro h; exact absurd h (by simp)
      · intro h; omega
    · have h₃ : a.toNat = b.toNat := by omega
      simp [h₁, h₂, h₃]

lemma charsLe_total : ∀ as bs : List Char,
    charsLe as bs = true ∨ charsLe bs as = true
  | [], _ => Or.inl rfl
  | _ :: _, [] => Or.inr rfl
  | a :: as, b :: bs => by
      rcases Nat.lt_trichotomy a.toNat b.toNat with h | h | h
      · exact Or.inl (charsLe_cons_iff.mpr (Or.inl h))
      · rcases charsLe_total as bs with hr | hr
        · exact Or.inl (charsLe_cons_iff.mpr (Or.inr ⟨h, hr⟩))
        · exact Or.inr (charsLe_cons_iff.mpr (Or.inr ⟨h.symm, hr⟩))
      · exact Or.inr (charsLe_cons_iff.mpr (Or.inl h))

lemma charsLe_trans : ∀ as bs cs : List Char, charsLe as bs = true →
    charsLe bs cs = true → charsLe as cs = true
  | [], _, _, _, _ => rfl
  | a :: as, [], _, h₁, _ => by simp [charsLe] at h₁
  | a :: as, b :: bs, [], _, h₂ => by simp [charsLe] at h₂
  | a :: as, b :: bs, c :: cs, h₁, h₂ => by
      rw [charsLe_cons_iff] at h₁ h₂ ⊢
      rcases h₁ with h₁ | ⟨h₁, h₁'⟩ <;> rcases h₂ with h₂ | ⟨h₂, h₂'⟩
      · exact Or.inl (by omega)
      · exact Or.inl (by omega)
      · exact Or.inl (by omega)
      · exact Or.inr ⟨by omega, charsLe_trans as bs cs h₁' h₂'⟩

instance : IsTotal String strLeR :=
  ⟨fun a b => charsLe_total a.data b.data⟩

instance : IsTrans String strLeR :=
  ⟨fun a b c h₁ h₂ => charsLe_trans a.data b.data c.data h₁ h₂⟩

lemma mem_rowEdges {row : List String} {e : String × String} :
    e ∈ rowEdges row ↔
      row.head? = some e.2 ∧ e.1 ∈ row.tail ∧ e.1 ≠ "" := by
  cases row with
  | nil => simp [rowEdges]
  | cons blocked blockers =>
    simp only [rowEdges, List.mem_map, List.mem_filter, List.head?_cons,
      Option.some.injEq, List.tail_cons]
    constructor
    · rintro ⟨b, ⟨hb, hne⟩, rfl⟩
      exact ⟨rfl, hb, by simpa using hne⟩
    · rintro ⟨hbl, hb, hne⟩
      refine ⟨e.1, ⟨hb, by simpa using hne⟩, ?_⟩
      rw [hbl]

lemma mem_parse_tasks_fst {rows : List (List String)} {t : String} :
    t ∈ (parse_tasks rows).1 ↔
      ∃ e ∈ (parse_tasks rows).2, t = e.1 ∨ t = e.2 := by
  simp only [parse_tasks, sortedTaskList]
  rw [List.mem_insertionSort, List.mem_dedup]
  simp only [rowTasks, List.mem_flatMap, List.mem_cons,
    List.not_mem_nil, or_false, List.mem_singleton]
  constructor
  · rintro ⟨row, hrow, e, he, ht⟩
    exact ⟨e, ⟨row, hrow, he⟩, ht⟩
  · rintro ⟨e, ⟨row, hrow, he⟩, ht⟩
    exact ⟨row, hrow, e, he, ht⟩

lemma alookup_buildTaskSprintMap (d : List (String × String × Int))
    (tasks : List String) (t : String) :
    alookup t (buildTaskSprintMap d tasks) =
      if t ∈ tasks then some (sprintNumOf d t) else none := by
  induction tasks with
  | nil => rfl
  | cons t' ts ih =>
    simp only [buildTaskSprintMap, List.map_cons] at ih ⊢
    by_cases h : t = t'
    · subst h; simp [alookup]
    · simp only [alookup, if_neg h, ih, List.mem_cons]
      simp [h]

end JiraDep

namespace JiraDep

/-- C2: the claim that every sprint-CSV row whose arity is not exactly two
is silently skipped is wrong for rows with more than two fields: there the
unpacking `task_id, sprint = row` raises an uncaught `ValueError`, as on
the row `["A", "SP1", "z"]`. -/
theorem readSprints_three_field_row_errors :
    readSprints [["A", "SP1", "z"]] = .error .unpackValueError := rfl

/-- C2 (amended): a sprint-CSV row with fewer than two fields is silently
skipped, the remaining rows still being processed; a row with more than
two fields raises an uncaught `ValueError` from tuple unpacking. -/
theorem readSprintsAux_wrong_arity (m : List (String × String × Int))
    (row : List String) (rest : List (List String)) (h : row.length ≠ 2) :
    readSprintsAux m (row :: rest) =
      if row.length < 2 then readSprintsAux m rest
      else .error .unpackValueError := by
  match row, h with
  | [], _ => simp [readSprintsAux]
  | [a], _ => simp [readSprintsAux]
  | [a, b], h => exact absurd rfl h
  | a :: b :: c :: cs, _ =>
    have h₂ : (a :: b :: c :: cs).length ≥ 2 := by
      simp only [List.length_cons]; omega
    have h₃ : ¬ (a :: b :: c :: cs).length < 2 := by omega
    simp only [readSprintsAux, if_pos h₂, if_neg h₃]

/-- Witness for C2 at the row `["A", "SP1", "z"]`. -/
theorem readSprintsAux_wrong_arity_witness :
    readSprintsAux [] [["A", "SP1", "z"]] = .error .unpackValueError := by
  have h := readSprintsAux_wrong_arity [] ["A", "SP1", "z"] [] (by decide)
  simpa using h

/-- C5: a missing dependency file is caught: an error line is printed and
the empty string returned, and parsing the resulting empty row set yields
the empty dataset; a missing sprint file raises an uncaught
`FileNotFoundError`. -/
theorem missing_file_behavior (fs : FileSystem) (rfs : RowFileSystem)
    (p q : String) (hp : fs p = none) (hq : rfs q = none) :
    read_task_dependencies fs p =
      ("", ["Error: File " ++ p ++ " not found"]) ∧
    parse_tasks [] = ([], []) ∧
    read_sprints_file rfs q = .error .fileNotFound := by
  refine ⟨?_, rfl, ?_⟩
  · simp [read_task_dependencies, hp]
  · simp [read_sprints_file, hq]

/-- Witness for C5 on an empty file system at the hard-coded paths. -/
theorem missing_file_behavior_witness :
    read_task_dependencies (fun _ => none) "doc/Isblockedby.csv" =
      ("", ["Error: File " ++ "doc/Isblockedby.csv" ++ " not found"]) ∧
    parse_tasks [] = ([], []) ∧
    read_sprints_file (fun _ => none) "doc/Sprints.csv" =
      .error .fileNotFound :=
  missing_file_behavior (fun _ => none) (fun _ => none)
    "doc/Isblockedby.csv" "doc/Sprints.csv" rfl rfl

/-- C7: the sentinel 999 does not sort after every real sprint: with the
sprint table `[["A", "SP1000"]]` the unassigned task `"B"` gets sentinel
999, which is smaller than A's real sprint number 1000. -/
theorem sentinel_not_after_SP1000 :
    readSprints [["A", "SP1000"]] = .ok [("A", ("SP1000", 1000))] ∧
    sprintNumOf [("A", ("SP1000", 1000))] "B" = sentinelNum ∧
    sprintNumOf [("A", ("SP1000", 1000))] "A" = 1000 ∧
    ¬ sentinelNum > (1000 : Int) :=
  ⟨rfl, by decide, by decide, by decide⟩

/-- C7 (amended): every task absent from the sprint table receives the same
sentinel number 999, and whenever every sprint number in the table is
below 999 the sentinel sorts strictly after every assigned task's
number. -/
theorem sentinel_sorts_after_bounded (d : List (String × String × Int))
    (hb : ∀ e ∈ d, e.2.2 < sentinelNum) (t u lbl : String) (n : Int)
    (ht : alookup t d = none) (hu : alookup u d = some (lbl, n)) :
    sprintNumOf d t = sentinelNum ∧ sprintNumOf d u < sprintNumOf d t := by
  have hn : n < sentinelNum := by
    have hmem := alookup_mem hu
    exact hb (u, lbl, n) hmem
  constructor
  · simp [sprintNumOf, ht]
  · simp [sprintNumOf, ht, hu]
    exact hn

/-- Witness for C7 with table `{A ↦ (SP1, 1)}` and unassigned task `B`. -/
theorem sentinel_sorts_after_bounded_witness :
    sprintNumOf [("A", ("SP1", 1))] "B" = sentinelNum ∧
    sprintNumOf [("A", ("SP1", 1))] "A" <
      sprintNumOf [("A", ("SP1", 1))] "B" :=
  sentinel_sorts_after_bounded [("A", ("SP1", 1))] (by decide)
    "B" "A" "SP1" 1 (by decide) (by decide)

/-- C8: the dependency parser is a pure function — applied twice to the
same row content it returns identical task lists and edge lists. -/
theorem parse_tasks_deterministic (rows₁ rows₂ : List (List String))
    (h : rows₁ = rows₂) : parse_tasks rows₁ = parse_tasks rows₂ := by
  rw [h]

/-- Witness for C8 on a concrete dependency file. -/
theorem parse_tasks_deterministic_witness :
    parse_tasks [["A", "B"], ["C"]] = parse_tasks [["A", "B"], ["C"]] :=
  parse_tasks_deterministic [["A", "B"], ["C"]] [["A", "B"], ["C"]] rfl

/-- C10: `read_sprints` removes every occurrence of `"SP"` in the label,
not only a leading prefix: `"1SP2"` parses to 12 (no error) and
`"SP1SP"` to 1. -/
theorem parseSprintNum_removes_all_SP :
    removeSP "1SP2".data = "12".data ∧
    parseSprintNum "1SP2" = some 12 ∧
    parseSprintNum "SP1SP" = some 1 ∧
    readSprints [["T", "1SP2"]] = .ok [("T", ("1SP2", 12))] :=
  ⟨by decide, by decide, by decide, rfl⟩

/-- C6: a label whose remainder after stripping a leading `"SP"` prefix is
not numeric need not raise: `"1SP2"` is such a label (the spec-side strip
leaves `"1SP2"`, which `int` rejects), yet the loader accepts the row and
returns sprint number 12. -/
theorem readSprints_nonprefix_label_no_error :
    spec_stripPrefixSP "1SP2" = "1SP2" ∧ pyInt "1SP2" = none ∧
    readSprints [["A", "1SP2"]] = .ok [("A", ("1SP2", 12))] :=
  ⟨by decide, by decide, rfl⟩

/-- C6 (amended): over rows of exactly two fields, the loader raises an
uncaught `ValueError` exactly when some row's label, after removing every
occurrence of `"SP"`, is not a valid integer literal. -/
theorem readSprintsAux_error_iff_bad_label (rows : List (List String))
    (h : ∀ row ∈ rows, row.length = 2) (m : List (String × String × Int)) :
    exceptIsError (readSprintsAux m rows) =
      rows.any (fun row => (parseSprintNum (row.getD 1 "")).isNone) := by
  induction rows generalizing m with
  | nil => rfl
  | cons row rest ih =>
    obtain ⟨a, b, rfl⟩ :=
      List.length_eq_two.mp (h row (List.mem_cons_self _ _))
    have hrest : ∀ r ∈ rest, r.length = 2 :=
      fun r hr => h r (List.mem_cons_of_mem _ hr)
    cases hp : parseSprintNum b with
    | none => simp [readSprintsAux, hp, exceptIsError]
    | some n => simp [readSprintsAux, hp, ih hrest]

/-- Witness for C6 at the single bad-label row `["A", "SPx"]`. -/
theorem readSprintsAux_error_iff_bad_label_witness :
    exceptIsError (readSprintsAux [] [["A", "SPx"]]) =
      [["A", "SPx"]].any
        (fun row => (parseSprintNum (row.getD 1 "")).isNone) :=
  readSprintsAux_error_iff_bad_label [["A", "SPx"]] (by decide) []

/-- C4: a row whose task lists no blocking tasks contributes nothing: on
`[["A"]]` the parser returns no tasks at all, although `"A"` is a
non-empty field of the input. -/
theorem parse_tasks_singleton_row_dropped :
    parse_tasks [["A"]] = ([], []) ∧ "A" ∉ (parse_tasks [["A"]]).1 := by
  refine ⟨by decide, by decide⟩

/-- C4 (amended): the parser returns a sorted, duplicate-free task list
containing exactly the endpoints of the returned edges — the first field
of a row is included only when the row has at least one non-empty blocking
field — together with the directed edges (blocking → blocked): `(b, t)` is
an edge exactly when some row has first field `t` and `b` as a non-empty
later field. -/
theorem parse_tasks_spec (rows : List (List String)) :
    List.Sorted strLeR (parse_tasks rows).1 ∧
    (parse_tasks rows).1.Nodup ∧
    (∀ t, t ∈ (parse_tasks rows).1 ↔
      ∃ e ∈ (parse_tasks rows).2, t = e.1 ∨ t = e.2) ∧
    (∀ e, e ∈ (parse_tasks rows).2 ↔
      ∃ row ∈ rows, row.head? = some e.2 ∧ e.1 ∈ row.tail ∧ e.1 ≠ "") := by
  refine ⟨?_, ?_, fun t => mem_parse_tasks_fst, fun e => ?_⟩
  · simp only [parse_tasks, sortedTaskList]
    exact List.sorted_insertionSort strLeR _
  · simp only [parse_tasks, sortedTaskList]
    exact (List.perm_insertionSort strLeR _).symm.nodup
      (List.nodup_dedup _)
  · simp only [parse_tasks, List.mem_flatMap]
    constructor
    · rintro ⟨row, hrow, he⟩
      exact ⟨row, hrow, mem_rowEdges.mp he⟩
    · rintro ⟨row, hrow, h⟩
      exact ⟨row, hrow, mem_rowEdges.mpr h⟩

/-- C9: the returned task list consists of exactly the endpoints of the
returned edges: a task is listed iff it is the source or the target of
some returned edge. -/
theorem parse_tasks_tasks_eq_edge_endpoints (rows : List (List String))
    (t : String) :
    t ∈ (parse_tasks rows).1 ↔
      ∃ e ∈ (parse_tasks rows).2, t = e.1 ∨ t = e.2 :=
  mem_parse_tasks_fst

/-- C1: the claim that an edge touching a task with unknown sprint
assignment is always classified normal is wrong: with sprint table
`{B ↦ (SP1, 1)}` and dependency row `B,A`, the edge (A, B) has unassigned
source A (sentinel 999 > 1), and `main` puts it in `red_edges`. -/
theorem classifyRed_unassigned_source_red :
    ("A", "B") ∈ (parse_tasks [["B", "A"]]).2 ∧
    alookup "A" [("B", ("SP1", (1 : Int)))] = none ∧
    classifyRed (buildTaskSprintMap [("B", ("SP1", 1))]
        (parse_tasks [["B", "A"]]).1) ("A", "B") = true := by
  decide

/-- C1 (amended): for every edge of the dependency graph, the edge is
classified violating iff the target's sprint number is not -1 and the
source's sprint number exceeds the target's, where a task absent from the
sprint table has the sentinel number 999; in particular an edge from an
unassigned task to a task with sprint number below 999 is violating. -/
theorem classifyRed_iff_sprint_gt (rows : List (List String))
    (d : List (String × String × Int)) (e : String × String)
    (he : e ∈ (parse_tasks rows).2) :
    classifyRed (buildTaskSprintMap d (parse_tasks rows).1) e = true ↔
      (sprintNumOf d e.2 ≠ -1 ∧
        sprintNumOf d e.1 > sprintNumOf d e.2) := by
  have h1 : e.1 ∈ (parse_tasks rows).1 :=
    mem_parse_tasks_fst.mpr ⟨e, he, Or.inl rfl⟩
  have h2 : e.2 ∈ (parse_tasks rows).1 :=
    mem_parse_tasks_fst.mpr ⟨e, he, Or.inr rfl⟩
  simp only [classifyRed, alookup_buildTaskSprintMap, if_pos h1, if_pos h2,
    Option.getD_some, Bool.and_eq_true, decide_eq_true_eq, ne_eq,
    gt_iff_lt]

/-- Witness for C1 on the run of `classifyRed_unassigned_source_red`. -/
theorem classifyRed_iff_sprint_gt_witness :
    classifyRed (buildTaskSprintMap [("B", ("SP1", 1))]
        (parse_tasks [["B", "A"]]).1) ("A", "B") = true ↔
      (sprintNumOf [("B", ("SP1", 1))] "B" ≠ -1 ∧
        sprintNumOf [("B", ("SP1", 1))] "A" >
          sprintNumOf [("B", ("SP1", 1))] "B") := by
  simpa using
    classifyRed_iff_sprint_gt [["B", "A"]] [("B", ("SP1", 1))] ("A", "B")
      (by decide)

end JiraDep

namespace JiraDep

lemma digit_char_facts {c : Char} (h : isDigit c = true) :
    c ≠ '+' ∧ c ≠ '-' ∧ c ≠ 'S' ∧ isPySpace c = false := by
  refine ⟨?_, ?_, ?_, ?_⟩
  · rintro rfl; revert h; decide
  · rintro rfl; revert h; decide
  · rintro rfl; revert h; decide
  · cases hb : isPySpace c with
    | false => rfl
    | true =>
      exfalso
      simp only [isPySpace, Bool.or_eq_true, decide_eq_true_eq] at hb
      rcases hb with ((((rfl | rfl) | rfl) | rfl) | rfl) | rfl <;>
        revert h <;> decide

lemma digitChar_isDigit {r : Nat} (h : r < 10) :
    isDigit (digitChar r) = true ∧ digitVal (digitChar r) = r := by
  interval_cases r <;> exact ⟨by decide, by decide⟩

lemma natRep_eq (n : Nat) :
    natRep n =
      if n = 0 then [] else natRep (n / 10) ++ [digitChar (n % 10)] := by
  rw [natRep]

lemma mem_natRep {n : Nat} :
    ∀ c ∈ natRep n, ∃ r, r < 10 ∧ c = digitChar r := by
  induction n using Nat.strong_induction_on with
  | _ n ih =>
    by_cases h : n = 0
    · subst h; rw [natRep_eq]; simp
    · rw [natRep_eq, if_neg h]
      intro c hc
      rcases List.mem_append.mp hc with hc | hc
      · exact ih (n / 10) (by omega) c hc
      · rcases List.mem_singleton.mp hc with rfl
        exact ⟨n % 10, by omega, rfl⟩

lemma decimalNat_all_digits (m : Nat) :
    ∀ c ∈ decimalNat m, isDigit c = true := by
  intro c hc
  by_cases h : m = 0
  · subst h
    rw [decimalNat, if_pos rfl] at hc
    rcases List.mem_singleton.mp hc with rfl
    decide
  · rw [decimalNat, if_neg h] at hc
    obtain ⟨r, hr, rfl⟩ := mem_natRep c hc
    exact (digitChar_isDigit hr).1

lemma digitsVal_nil (a : Nat) : digitsVal a [] = a := rfl

lemma digitsVal_cons (a : Nat) (c : Char) (cs : List Char) :
    digitsVal a (c :: cs) = digitsVal (a * 10 + digitVal c) cs := rfl

lemma digitsVal_append (l₁ l₂ : List Char) (a : Nat) :
    digitsVal a (l₁ ++ l₂) = digitsVal (digitsVal a l₁) l₂ := by
  induction l₁ generalizing a with
  | nil => rfl
  | cons c cs ih =>
    show digitsVal (a * 10 + digitVal c) (cs ++ l₂) =
      digitsVal (digitsVal (a * 10 + digitVal c) cs) l₂
    exact ih _

lemma parseDigitsAux_all_digits : ∀ (l : List Char) (a : Nat),
    (∀ c ∈ l, isDigit c = true) →
    parseDigitsAux a l = some (digitsVal a l)
  | [], _, _ => rfl
  | [c], a, h => by
    have hc := h c (List.mem_cons_self _ _)
    rw [parseDigitsAux, if_pos hc]
    rfl
  | c :: c₂ :: cs, a, h => by
    have hc := h c (List.mem_cons_self _ _)
    rw [parseDigitsAux, if_pos hc,
      parseDigitsAux_all_digits (c₂ :: cs) (a * 10 + digitVal c)
        (fun x hx => h x (List.mem_cons_of_mem _ hx))]
    rfl

lemma digitsVal_natRep (n : Nat) :
    ∀ a, digitsVal a (natRep n) = a * 10 ^ (natRep n).length + n := by
  induction n using Nat.strong_induction_on with
  | _ n ih =>
    intro a
    by_cases h : n = 0
    · subst h
      rw [natRep_eq, if_pos rfl, digitsVal_nil]
      simp
    · rw [natRep_eq, if_neg h, digitsVal_append, ih (n / 10) (by omega) a,
        digitsVal_cons, digitsVal_nil,
        (digitChar_isDigit (show n % 10 < 10 by omega)).2,
        List.length_append, List.length_singleton]
      have hstep :
          (a * 10 ^ (natRep (n / 10)).length + n / 10) * 10 + n % 10 =
            a * (10 ^ (natRep (n / 10)).length * 10) +
              (n / 10 * 10 + n % 10) := by
        ring
      rw [hstep, ← pow_succ]
      congr 1
      omega

lemma pyParseDigits_decimalNat (m : Nat) :
    pyParseDigits (decimalNat m) = some m := by
  by_cases h : m = 0
  · subst h; decide
  · rw [decimalNat, if_neg h]
    cases hrep : natRep m with
    | nil =>
      exfalso
      have hv := digitsVal_natRep m 0
      rw [hrep, digitsVal_nil] at hv
      simp at hv
      omega
    | cons c cs =>
      have hall : ∀ x ∈ natRep m, isDigit x = true := by
        intro x hx
        obtain ⟨r, hr, rfl⟩ := mem_natRep x hx
        exact (digitChar_isDigit hr).1
      have hc : isDigit c = true := by
        apply hall; rw [hrep]; exact List.mem_cons_self _ _
      have hcs : ∀ x ∈ cs, isDigit x = true := by
        intro x hx
        apply hall; rw [hrep]; exact List.mem_cons_of_mem _ hx
      rw [pyParseDigits, if_pos hc,
        parseDigitsAux_all_digits cs (digitVal c) hcs]
      have hv := digitsVal_natRep m 0
      rw [hrep, digitsVal_cons] at hv
      simp only [Nat.zero_mul, Nat.zero_add] at hv
      rw [hv]

lemma pyStrip_no_space {l : List Char}
    (h : ∀ c ∈ l, isPySpace c = false) : pyStrip l = l := by
  have drop1 : ∀ l' : List Char, (∀ c ∈ l', isPySpace c = false) →
      l'.dropWhile isPySpace = l' := by
    intro l' h'
    cases l' with
    | nil => rfl
    | cons c cs => simp [List.dropWhile_cons, h' c (List.mem_cons_self _ _)]
  rw [pyStrip, drop1 l h, drop1, List.reverse_reverse]
  intro c hc
  exact h c (List.mem_reverse.mp hc)

lemma decimalNat_ne_nil (m : Nat) : decimalNat m ≠ [] := by
  by_cases h : m = 0
  · subst h; decide
  · rw [decimalNat, if_neg h]
    intro hrep
    have hv := digitsVal_natRep m 0
    rw [hrep, digitsVal_nil] at hv
    simp at hv
    omega

lemma pyIntCore_decimalNat (m : Nat) :
    pyIntCore (decimalNat m) = some (Int.ofNat m) := by
  cases hrep : decimalNat m with
  | nil => exact absurd hrep (decimalNat_ne_nil m)
  | cons c cs =>
    have hc : isDigit c = true :=
      decimalNat_all_digits m c (hrep ▸ List.mem_cons_self _ _)
    obtain ⟨hplus, hminus, -, -⟩ := digit_char_facts hc
    rw [pyIntCore, if_neg hplus, if_neg hminus, ← hrep,
      pyParseDigits_decimalNat]
    rfl

lemma decimal_not_S_not_space (n : Int) :
    ∀ c ∈ decimalInt n, c ≠ 'S' ∧ isPySpace c = false := by
  cases n with
  | ofNat m =>
    intro c hc
    simp only [decimalInt] at hc
    obtain ⟨-, -, hS, hsp⟩ := digit_char_facts (decimalNat_all_digits m c hc)
    exact ⟨hS, hsp⟩
  | negSucc m =>
    intro c hc
    simp only [decimalInt] at hc
    rcases List.mem_cons.mp hc with rfl | hc
    · exact ⟨by decide, by decide⟩
    · obtain ⟨-, -, hS, hsp⟩ :=
        digit_char_facts (decimalNat_all_digits (m + 1) c hc)
      exact ⟨hS, hsp⟩

lemma removeSP_cons_of_ne {c : Char} (h : c ≠ 'S') (cs : List Char) :
    removeSP (c :: cs) = c :: removeSP cs := by
  cases cs with
  | nil => rfl
  | cons d ds =>
    simp only [removeSP]
    rw [if_neg]
    rintro ⟨rfl, -⟩
    exact h rfl

lemma removeSP_id {l : List Char} (h : ∀ c ∈ l, c ≠ 'S') :
    removeSP l = l := by
  induction l with
  | nil => rfl
  | cons c cs ih =>
    rw [removeSP_cons_of_ne (h c (List.mem_cons_self _ _)),
      ih (fun x hx => h x (List.mem_cons_of_mem _ hx))]

lemma removeSP_SP (l : List Char) :
    removeSP ('S' :: 'P' :: l) = removeSP l := by
  simp [removeSP]

/-- C3: for every integer n, the label `"SP<n>"` (the string `"SP"`
prefixed to the decimal rendering of n) parses back through the
sprint-number computation of `read_sprints` to exactly n. -/
theorem parseSprintNum_sprintLabel_roundtrip (n : Int) :
    parseSprintNum (sprintLabel n) = some n := by
  show pyInt (String.mk (removeSP ('S' :: 'P' :: decimalInt n))) = some n
  rw [removeSP_SP,
    removeSP_id (fun c hc => ((decimal_not_S_not_space n) c hc).1)]
  show pyIntCore (pyStrip (decimalInt n)) = some n
  rw [pyStrip_no_space (fun c hc => ((decimal_not_S_not_space n) c hc).2)]
  cases n with
  | ofNat m => exact pyIntCore_decimalNat m
  | negSucc m =>
    show pyIntCore ('-' :: decimalNat (m + 1)) = some (Int.negSucc m)
    rw [pyIntCore, if_neg (by decide), if_pos rfl,
      pyParseDigits_decimalNat]
    rfl

end JiraDep
